import Mathlib

/-!
# go-linter-runner: the lint pipeline's text filtering and link rewriting

A shallow embedding of `runner/run/execute.go`, `runner/run.go` and `main.go`.

A Go `string` is modelled as the list of its Unicode code points (`Str`), that is, as
UTF-8 text.  On such text the byte-level operations of package `strings` used by the
program (`Contains`, `Index`, `Split`, `ReplaceAll`) coincide with the code-point-level
ones below, because UTF-8 is self-synchronising; `TrimSpace`, `TrimLeft`, `Fields` and
`ReplaceAll` with an empty pattern work on code points in Go as well.  External
processes and the file system are modelled by the outcomes they hand back to the
program: a `World` for `Prepare` and `Run`, the `Stages` for `main`.
-/

set_option linter.unusedVariables false
set_option maxRecDepth 20000

namespace GoLinterRunner

/-- A Go string, as the list of its code points. -/
abbrev Str := List Char

/-! ## Package `strings` and `unicode` -/

/-- Go `unicode.IsSpace`: the Latin-1 spaces `\t \n \v \f \r`, space, U+0085, U+00A0,
and the other code points of the Unicode `White_Space` property. -/
def isSpace (c : Char) : Bool :=
  let n := c.toNat
  (decide (9 ≤ n) && decide (n ≤ 13)) || n == 32 || n == 0x85 || n == 0xA0 ||
  n == 0x1680 || (decide (0x2000 ≤ n) && decide (n ≤ 0x200A)) ||
  n == 0x2028 || n == 0x2029 || n == 0x202F || n == 0x205F || n == 0x3000

/-- Go `strings.TrimLeftFunc(s, unicode.IsSpace)`. -/
def trimLeftSpace (s : Str) : Str := s.dropWhile isSpace

/-- Go `strings.TrimRightFunc(s, unicode.IsSpace)`. -/
def trimRightSpace (s : Str) : Str := (s.reverse.dropWhile isSpace).reverse

/-- Go `strings.TrimSpace`: leading white space is removed first, then trailing. -/
def TrimSpace (s : Str) : Str := trimRightSpace (trimLeftSpace s)

/-- Go `strings.TrimLeft(s, cutset)`: drops the leading code points that occur in
`cutset`. -/
def TrimLeft (s cutset : Str) : Str := s.dropWhile (fun c => cutset.contains c)

/-- Go `strings.HasPrefix(s, prefix)`. -/
def HasPrefix (s pre : Str) : Bool := pre.isPrefixOf s

/-- Scan for `strings.Index`: `i` is the offset of `s` in the original string. -/
def indexFrom (sub : Str) : Str → Nat → Int
  | [], i => if sub = [] then (i : Int) else -1
  | c :: cs, i => if HasPrefix (c :: cs) sub then (i : Int) else indexFrom sub cs (i + 1)

/-- Go `strings.Index(s, substr)`: offset of the first occurrence, or `-1`. -/
def Index (s sub : Str) : Int := indexFrom sub s 0

/-- Go `strings.Contains(s, substr)`, which is `Index(s, substr) >= 0`. -/
def Contains (s sub : Str) : Bool := decide (0 ≤ Index s sub)

/-- The copy loop of `strings.Replace` for a non-empty `old`: `skip` counts the code
points of the current match that are still to be passed over; outside a match the
leftmost occurrence of `old` is replaced by `new` and the scan resumes behind it. -/
def replaceScan (old new : Str) : Nat → Str → Str
  | _, [] => []
  | k + 1, _ :: cs => replaceScan old new k cs
  | 0, c :: cs =>
    if HasPrefix (c :: cs) old then new ++ replaceScan old new (old.length - 1) cs
    else c :: replaceScan old new 0 cs

/-- Go `strings.ReplaceAll(s, old, new)` (`Replace` with `n = -1`).  Equal `old` and
`new` return `s`; an empty `old` matches before every code point and at the end. -/
def ReplaceAll (s old new : Str) : Str :=
  if old = new then s
  else if old = [] then new ++ s.flatMap (fun c => c :: new)
  else replaceScan old new 0 s

/-- First field and remaining fields of `s` cut at the code points satisfying `p`. -/
def splitAux (p : Char → Bool) : Str → Str × List Str
  | [] => ([], [])
  | c :: cs =>
    if p c then ([], (splitAux p cs).1 :: (splitAux p cs).2)
    else (c :: (splitAux p cs).1, (splitAux p cs).2)

/-- Go `strings.Split(s, sep)` for a one-character separator: the fields between the
separators, `[""]` for the empty string. -/
def Split (s : Str) (sep : Char) : List Str :=
  (splitAux (fun c => c == sep) s).1 :: (splitAux (fun c => c == sep) s).2

/-- Go `strings.Fields`: the maximal runs of non-space code points. -/
def Fields (s : Str) : List Str :=
  ((splitAux isSpace s).1 :: (splitAux isSpace s).2).filter (fun f => !f.isEmpty)

/-- Go `fmt.Sprintf("%d", n)` for a non-negative `n`. -/
def fmtNat (n : Nat) : Str := (Nat.repr n).toList

/-! ## Errors, external commands and the world -/

/-- The Go `error` values of the pipeline. -/
inductive Error where
  /-- an error reported by `os/exec` for the process itself -/
  | exec (msg : Str)
  /-- the value of `ErrSkipNoGoModRepo` -/
  | skipNoGoModRepo
  /-- the wrapper of `runCmd`: `fmt.Errorf("run %s %+v failed %w", cmd.Path, cmd.Args, err)` -/
  | runFailed (path : Str) (args : List Str) (cause : Error)
  /-- the wrapper `fmt.Errorf("git branch failed %w", err)` -/
  | gitBranchFailed (cause : Error)
  deriving DecidableEq, Repr

/-- Go `var ErrSkipNoGoModRepo = errors.New("skip this repo for no go.mod file exists")`. -/
def ErrSkipNoGoModRepo : Error := Error.skipNoGoModRepo

/-- An `exec.Cmd`: `Path` is `cmd.Path`, the executable as `exec.Command` resolved it,
`Args` is `cmd.Args`, the command name followed by its arguments, and `Dir` is the
working directory `cmd.Dir`. -/
structure Cmd where
  Path : Str
  Args : List Str
  Dir : Str
  deriving DecidableEq, Repr

/-- What a finished process hands back: its standard output and standard error, the
buffer `CombinedOutput` collects from both, and the error of `Run`/`Output`. -/
structure ProcResult where
  stdout : Str
  stderr : Str
  combined : Str
  err : Option Error
  deriving DecidableEq, Repr

/-- Whether `d` is a merge of `a` and `b` that keeps the order inside each: the shape
of the buffer `CombinedOutput` fills from standard output `a` and standard error `b`. -/
def isInterleaving : Str → Str → Str → Bool
  | a, b, [] => a.isEmpty && b.isEmpty
  | a, b, d :: ds =>
    (match a with
      | x :: xs => x == d && isInterleaving xs b ds
      | [] => false) ||
    (match b with
      | y :: ys => y == d && isInterleaving a ys ds
      | [] => false)

/-- Modelled from the spec: the helpers `SplitCommand` and `IsFileExists` of package
`utils`, which is not part of the sources at hand, are taken as parameters together with
the surroundings of the program: `SplitCommand` splits a command into executable and
arguments, `IsFileExists` tells whether a file exists, `Join` stands for `path.Join`,
`Getenv` for `os.Getenv`, `LookPath` gives the path `exec.Command` resolves a command
name to (the name itself when it holds a path separator or is not found), and `exec`
gives the outcome of running a command. -/
structure World where
  exec : Cmd → ProcResult
  LookPath : Str → Str
  IsFileExists : Str → Bool
  SplitCommand : Str → Str × List Str
  Join : Str → Str → Str
  Getenv : Str → Str

/-- Go `exec.CommandContext(ctx, name, args...)` followed by `cmd.Dir = dir`: the path
is the resolved name, `cmd.Args` is the name followed by the arguments. -/
def CommandContext (w : World) (name : Str) (args : List Str) (dir : Str) : Cmd :=
  ⟨w.LookPath name, name :: args, dir⟩

/-- The loop `for _, v := range list { if strings.Contains(line, v) { return true } }`
followed by `return false`, as `includeLine` and `excludeLine` run it. -/
def anyContained : List Str → Str → Bool
  | [], _ => false
  | v :: vs, line => if Contains line v then true else anyContained vs line

/-! ## Package `run` (`runner/run/execute.go`) -/

namespace run

/-- Modelled from the spec: the declaration of `Config` and the helpers
`utils.GetStringArray` and `utils.CastToBool` are not part of the sources at hand.  This
is the linter part of the run configuration: `Includes` and `Excludes` hold the lists
`utils.GetStringArray` yields for the configured include and exclude filters,
`CollectStderr` the flag `utils.CastToBool` yields for the stderr-collection option. -/
structure LinterCfg where
  Workdir : Str
  LinterCommand : Str
  InstallCommand : Str
  Includes : List Str
  Excludes : List Str
  CollectStderr : Bool
  IssueID : Str
  deriving DecidableEq, Repr

/-- The run configuration (`*Config`). -/
structure Config where
  LinterCfg : LinterCfg
  Repo : Str
  RepoDir : Str
  RepoBranch : Str
  RepoTarget : Str
  deriving DecidableEq, Repr

/-- Go `runCmd`: runs the command, prints its combined output, and wraps a failure with
`cmd.Path` and `cmd.Args`. -/
def runCmd (w : World) (cmd : Cmd) : Option Error :=
  match (w.exec cmd).err with
  | some e => some (Error.runFailed cmd.Path cmd.Args e)
  | none => none

/-- Result of `Prepare`: the error returned, the configuration as left behind, and the
commands that were run, in order. -/
structure PrepareResult where
  err : Option Error
  cfg : Config
  trace : List Cmd
  deriving DecidableEq, Repr

/-- The install command of `Prepare`. -/
def installCmd (w : World) (cfg : Config) : Cmd :=
  CommandContext w (w.SplitCommand cfg.LinterCfg.InstallCommand).1
    (w.SplitCommand cfg.LinterCfg.InstallCommand).2 cfg.LinterCfg.Workdir

/-- The command `rm -rf <RepoDir>` of `Prepare`. -/
def rmCmd (w : World) (cfg : Config) : Cmd :=
  CommandContext w "rm".toList ["-rf".toList, cfg.RepoDir] cfg.LinterCfg.Workdir

/-- The command `git clone <Repo>` of `Prepare`. -/
def cloneCmd (w : World) (cfg : Config) : Cmd :=
  CommandContext w "git".toList ["clone".toList, cfg.Repo] cfg.LinterCfg.Workdir

/-- The command `go mod download` of `Prepare`. -/
def downloadCmd (w : World) (cfg : Config) : Cmd :=
  CommandContext w "go".toList ["mod".toList, "download".toList] cfg.RepoDir

/-- The command `git branch --show-current` of `Prepare`. -/
def branchCmd (w : World) (cfg : Config) : Cmd :=
  CommandContext w "git".toList ["branch".toList, "--show-current".toList] cfg.RepoDir

/-- Go `Prepare`. -/
def Prepare (w : World) (cfg : Config) : PrepareResult :=
  -- install linter
  match runCmd w (installCmd w cfg) with
  | some e => ⟨some e, cfg, [installCmd w cfg]⟩
  | none =>
  -- clone repo
  match runCmd w (rmCmd w cfg) with
  | some e => ⟨some e, cfg, [installCmd w cfg, rmCmd w cfg]⟩
  | none =>
  match runCmd w (cloneCmd w cfg) with
  | some e => ⟨some e, cfg, [installCmd w cfg, rmCmd w cfg, cloneCmd w cfg]⟩
  | none =>
  -- check go.mod exists
  if !w.IsFileExists (w.Join cfg.RepoDir "go.mod".toList) then
    ⟨some ErrSkipNoGoModRepo, cfg, [installCmd w cfg, rmCmd w cfg, cloneCmd w cfg]⟩
  else
  -- run go mod download
  match runCmd w (downloadCmd w cfg) with
  | some e => ⟨some e, cfg, [installCmd w cfg, rmCmd w cfg, cloneCmd w cfg, downloadCmd w cfg]⟩
  | none =>
  -- read default branch for repo
  match (w.exec (branchCmd w cfg)).err with
  | some e =>
    ⟨some (Error.gitBranchFailed e), cfg,
      [installCmd w cfg, rmCmd w cfg, cloneCmd w cfg, downloadCmd w cfg, branchCmd w cfg]⟩
  | none =>
    let branch := TrimSpace (w.exec (branchCmd w cfg)).stdout
    ⟨none, { cfg with RepoBranch := branch, RepoTarget := cfg.Repo ++ "/blob/".toList ++ branch },
      [installCmd w cfg, rmCmd w cfg, cloneCmd w cfg, downloadCmd w cfg, branchCmd w cfg]⟩

/-- Go `includeLine`. -/
def includeLine (includes : List Str) (line : Str) : Bool :=
  if includes.length = 0 then true else anyContained includes line

/-- Go `excludeLine`. -/
def excludeLine (excludes : List Str) (line : Str) : Bool :=
  if excludes.length = 0 then false else anyContained excludes line

/-- One round of the loop over `outputs` in `Run`: `valid` is `validOutputs`. -/
def filterStep (includes excludes : List Str) (valid : List Str) (line : Str) : List Str :=
  let line := TrimSpace line
  if line.length = 0 then valid
  else if includeLine includes line && !excludeLine excludes line then valid ++ [line]
  else valid

/-- The loop `for _, line := range outputs` of `Run`, started with an empty
`validOutputs`. -/
def filterLoop (includes excludes : List Str) (outputs : List Str) : List Str :=
  outputs.foldl (filterStep includes excludes) []

/-- The lint command of `Run`: the configured command plus the argument `./...`. -/
def lintCmd (w : World) (cfg : Config) : Cmd :=
  CommandContext w (w.SplitCommand cfg.LinterCfg.LinterCommand).1
    ((w.SplitCommand cfg.LinterCfg.LinterCommand).2 ++ ["./...".toList]) cfg.RepoDir

/-- The text `Run` processes: standard output, followed by a newline and standard error
when stderr collection is on. -/
def composeOutput (cfg : Config) (res : ProcResult) : Str :=
  if cfg.LinterCfg.CollectStderr then res.stdout ++ "\n".toList ++ res.stderr else res.stdout

/-- Go `Run`, from the outcome `res` of the lint process: the lines and the error. -/
def runOn (cfg : Config) (res : ProcResult) : List Str × Option Error :=
  let output := TrimSpace (composeOutput cfg res)
  if output.length = 0 then ([], none)
  else (filterLoop cfg.LinterCfg.Includes cfg.LinterCfg.Excludes (Split output '\n'), none)

/-- Go `Run`. -/
def Run (w : World) (cfg : Config) : List Str × Option Error :=
  runOn cfg (w.exec (lintCmd w cfg))

/-- One loop of `Parse`: for `i` from `0` on, `outputs[i]` is overwritten with every
`old` replaced by `new` when it contains `old`. -/
def rewriteLoop (old new : Str) (outputs : List Str) : List Str :=
  (List.range outputs.length).foldl
    (fun out i =>
      let line := out.getD i []
      if Contains line old then out.set i (ReplaceAll line old new) else out)
    outputs

/-- Go `Parse`. -/
def Parse (cfg : Config) (outputs : List Str) : List Str :=
  -- replace local path to a github link
  let outputs := rewriteLoop cfg.RepoDir cfg.RepoTarget outputs
  -- process the example.go:7:6 -> #L7
  rewriteLoop ".go:".toList ".go#L".toList outputs

/-- Go `buildIssueCommentLineSplit`: `(codePath, other)`. -/
def buildIssueCommentLineSplit (cfg : Config) (line : Str) : Str × Str :=
  let index := Index line cfg.RepoTarget
  if index < 0 then ([], line)
  else
    let other := line.take index.toNat
    let tail := line.drop index.toNat
    let index := Index tail " ".toList
    if index < 0 then (TrimSpace tail, TrimSpace other)
    else (TrimSpace (tail.take index.toNat), TrimSpace (other ++ tail.drop index.toNat))

/-- Go `buildIssueCommentLine`. -/
def buildIssueCommentLine (cfg : Config) (line : Str) : Str :=
  let codePath := (buildIssueCommentLineSplit cfg line).1
  let other := (buildIssueCommentLineSplit cfg line).2
  if codePath = [] then line
  else
    let pathText := TrimLeft (ReplaceAll codePath cfg.RepoTarget []) "/:".toList
    "[".toList ++ pathText ++ "](".toList ++ codePath ++ ") ".toList ++ other

/-- The numbered item `buildIssueComment` writes for `outputs[i]`. -/
def commentItem (cfg : Config) (i : Nat) (line : Str) : Str :=
  fmtNat (i + 1) ++ ". ".toList ++ buildIssueCommentLine cfg line ++ "\n".toList

/-- The items `buildIssueComment` writes for the lines from index `i` on. -/
def commentItems (cfg : Config) : Nat → List Str → Str
  | _, [] => []
  | i, line :: rest => commentItem cfg i line ++ commentItems cfg (i + 1) rest

/-- Go `buildIssueComment`. -/
def buildIssueComment (w : World) (cfg : Config) (outputs : List Str) : Str :=
  "Run `".toList ++ cfg.LinterCfg.LinterCommand ++ "` on Repo: ".toList ++ cfg.Repo ++ "\n".toList
  ++ "\n".toList
  ++ "Got total ".toList ++ fmtNat outputs.length ++ " line output in action: ".toList
  ++ w.Getenv "GH_ACTION_LINK".toList
  ++ "\n".toList
  ++ "<details>\n".toList
  ++ "<summary>Expand</summary>\n\n".toList
  ++ commentItems cfg 0 outputs
  ++ "\n".toList
  ++ "</details>\n\n".toList
  ++ "Report issue: ".toList ++ cfg.Repo ++ "/issues\n".toList

end run

/-! ## Package `runner` (`runner/run.go`) -/

namespace runner

/-- Modelled from the spec: the declaration of `Config` is not part of the sources at
hand.  This is the linter part of the run configuration, with the fields `Run` reads:
the lint command and the include and exclude lists. -/
structure LinterCfg where
  LinterCommand : Str
  Includes : List Str
  Excludes : List Str
  deriving DecidableEq, Repr

/-- The run configuration (`*Config`). -/
structure Config where
  LinterCfg : LinterCfg
  RepoDir : Str
  deriving DecidableEq, Repr

/-- Go `includeLine`. -/
def includeLine (c : Config) (line : Str) : Bool :=
  if c.LinterCfg.Includes.length = 0 then true else anyContained c.LinterCfg.Includes line

/-- Go `excludeLine`. -/
def excludeLine (c : Config) (line : Str) : Bool :=
  if c.LinterCfg.Excludes.length = 0 then false else anyContained c.LinterCfg.Excludes line

/-- One round of the loop over `outputs` in `Run`: `valid` is `validOutputs`. -/
def filterStep (cfg : Config) (valid : List Str) (line : Str) : List Str :=
  let line := TrimSpace line
  if line.length = 0 then valid
  else if includeLine cfg line && !excludeLine cfg line then valid ++ [line]
  else valid

/-- The lint command of `Run`: `exec.CommandContext(ctx, args[0], args...)` with
`args` the fields of the configured command plus `./...`. -/
def lintCmd (w : World) (cfg : Config) : Cmd :=
  let args := Fields cfg.LinterCfg.LinterCommand ++ ["./...".toList]
  CommandContext w (args.headD []) args cfg.RepoDir

/-- Go `Run`, from the outcome of `cmd.CombinedOutput()`: the lines and the error. -/
def runOn (cfg : Config) (data : Str) (err : Option Error) : List Str × Option Error :=
  let output := data
  if err.isSome && output.length = 0 then ([], err)
  else ((Split output '\n').foldl (filterStep cfg) [], none)

/-- Go `Run`. -/
def Run (w : World) (cfg : Config) : List Str × Option Error :=
  runOn cfg (w.exec (lintCmd w cfg)).combined (w.exec (lintCmd w cfg)).err

end runner

/-! ## `main.go` -/

/-- Modelled from the spec: the declaration of `Config` is not part of the sources at
hand.  These are the configuration flags `main` reads: `IssueComment` is
`cfg.LinterCfg.Issue.Comment`, `IssueID` is `cfg.LinterCfg.Issue.ID`, `ExitFail` is
`cfg.LinterCfg.ExitFail`. -/
structure MainCfg where
  IssueComment : Bool
  IssueID : Int
  ExitFail : Bool
  deriving DecidableEq, Repr

/-- The outcomes of the stages `main` calls: `LoadCfg`, `Prepare`, `Run` and
`CreateIssueComment` (asked for only when `main` reaches the stage). -/
structure Stages where
  LoadCfg : Except Error MainCfg
  Prepare : Option Error
  Run : List Str × Option Error
  CreateIssueComment : Option Error

/-- Go `main`, as the exit status of the process: `log.Fatal` and `os.Exit(1)` end it
with status `1`, returning from `main` with status `0`.  `Parse` and `PrintOutput`
stand between `Run` and the comment stage and change neither the number of lines nor
the control flow. -/
def main (s : Stages) : Nat :=
  match s.LoadCfg with
  | Except.error _ => 1
  | Except.ok cfg =>
    match s.Prepare with
    | some _ => 0
    | none =>
      match s.Run with
      | (_, some _) => 0
      | (outputs, none) =>
        if outputs.length = 0 then 0
        else
          match (if cfg.IssueComment && decide (cfg.IssueID > 0) then s.CreateIssueComment
                 else none) with
          | some _ => 0
          | none => if cfg.ExitFail then 1 else 0

/-! ## The specification's vocabulary -/

/-- The lines of a text as the specification counts them: the fields between newlines,
each trimmed of surrounding white space, the blank ones left out. -/
def trimmedLines (text : Str) : List Str :=
  ((Split text '\n').map TrimSpace).filter (fun l => decide (l ≠ []))

/-- The same for a list of lines: each trimmed, the blank ones left out. -/
def trimmedNonBlank (lines : List Str) : List Str :=
  (lines.map TrimSpace).filter (fun l => decide (l ≠ []))

/-- The keep condition of the specification: the include list is empty or the line
contains one of its elements, and not: the exclude list is non-empty and the line
contains one of its elements. -/
def keepLine (includes excludes : List Str) (line : Str) : Prop :=
  (includes = [] ∨ ∃ v ∈ includes, v <:+: line) ∧
  ¬ (excludes ≠ [] ∧ ∃ v ∈ excludes, v <:+: line)

instance keepLineDecidable (includes excludes : List Str) (line : Str) :
    Decidable (keepLine includes excludes line) := by
  unfold keepLine
  exact inferInstance

/-! ## Concrete worlds and configurations -/

/-- A world in which every command ends with the outcome `res`, every file exists,
a command splits at its fields, command names resolve under `/usr/bin` and no
environment variable is set. -/
def worldOf (res : ProcResult) : World where
  exec := fun _ => res
  LookPath := fun name => "/usr/bin/".toList ++ name
  IsFileExists := fun _ => true
  SplitCommand := fun s => ((Fields s).headD [], (Fields s).tail)
  Join := fun dir file => dir ++ "/".toList ++ file
  Getenv := fun _ => []

/-- A configuration of package `run` with the given filters and stderr flag, for the
clone directory `/tmp/repo` of `https://github.com/org/repo` on branch `main`. -/
def cfgOf (includes excludes : List Str) (collectStderr : Bool) : run.Config where
  LinterCfg :=
    { Workdir := "/tmp".toList
      LinterCommand := "lint".toList
      InstallCommand := "go install lint".toList
      Includes := includes
      Excludes := excludes
      CollectStderr := collectStderr
      IssueID := "1".toList }
  Repo := "https://github.com/org/repo".toList
  RepoDir := "/tmp/repo".toList
  RepoBranch := "main".toList
  RepoTarget := "https://github.com/org/repo/blob/main".toList

/-- A configuration of package `runner` with the given filters. -/
def runnerCfgOf (includes excludes : List Str) : runner.Config where
  LinterCfg := { LinterCommand := "lint".toList, Includes := includes, Excludes := excludes }
  RepoDir := "/tmp/repo".toList

/-- A lint process that fails without writing to standard output, with `boom` on
standard error. -/
def failedSilent : ProcResult :=
  ⟨[], "boom".toList, "boom".toList, some (Error.exec "exit status 1".toList)⟩

/-- A lint process that exits non-zero after reporting one finding on standard output. -/
def failedWithFinding : ProcResult :=
  ⟨"a.go:1:2: bad\n".toList, [], "a.go:1:2: bad\n".toList,
    some (Error.exec "exit status 1".toList)⟩

/-- A lint process that succeeds with nothing on standard output and a warning on
standard error. -/
def okWithWarning : ProcResult := ⟨[], "warn".toList, "warn".toList, none⟩

/-- A lint process that succeeds and prints only white space. -/
def okBlank : ProcResult := ⟨" \n".toList, [], " \n".toList, none⟩

/-- A world without `go.mod` in which `git clone` fails and every other command
succeeds silently. -/
def worldCloneFails : World where
  exec := fun cmd =>
    if cmd.Path = "/usr/bin/git".toList then
      ⟨[], [], [], some (Error.exec "exit status 128".toList)⟩
    else ⟨[], [], [], none⟩
  LookPath := fun name => "/usr/bin/".toList ++ name
  IsFileExists := fun _ => false
  SplitCommand := fun s => ((Fields s).headD [], (Fields s).tail)
  Join := fun dir file => dir ++ "/".toList ++ file
  Getenv := fun _ => []

/-- A world without `go.mod` in which every command succeeds silently. -/
def worldNoGoMod : World where
  exec := fun _ => ⟨[], [], [], none⟩
  LookPath := fun name => "/usr/bin/".toList ++ name
  IsFileExists := fun _ => false
  SplitCommand := fun s => ((Fields s).headD [], (Fields s).tail)
  Join := fun dir file => dir ++ "/".toList ++ file
  Getenv := fun _ => []

/-- Stages of a run with one finding and the exit-on-failure flag set, in which
posting the comment fails. -/
def stagesCommentFails : Stages where
  LoadCfg := Except.ok ⟨true, 7, true⟩
  Prepare := none
  Run := (["a.go:1:2: bad".toList], none)
  CreateIssueComment := some (Error.exec "exit status 1".toList)

/-- Stages of a run whose configuration cannot be loaded. -/
def stagesNoConfig : Stages where
  LoadCfg := Except.error (Error.exec "no config".toList)
  Prepare := none
  Run := ([], none)
  CreateIssueComment := none

/-- Stages of a run with one finding and the exit-on-failure flag set, without a
comment to post. -/
def stagesFinding : Stages where
  LoadCfg := Except.ok ⟨false, 0, true⟩
  Prepare := none
  Run := (["a.go:1:2: bad".toList], none)
  CreateIssueComment := none

/-- A configuration whose browse-URL prefix itself contains `.go:`. -/
def cfgGoColon : run.Config :=
  { cfgOf [] [] false with RepoTarget := "https://host/x.go:/blob/main".toList }

/-- The output line of the comment example of the specification. -/
def exampleLine : Str := "https://github.com/org/repo/blob/main/a.go#L1:2: msg".toList

/-! ## Lemmas on the string operations -/

theorem hasPrefix_iff (s pre : Str) : HasPrefix s pre = true ↔ pre <+: s := by
  unfold HasPrefix
  exact List.isPrefixOf_iff_prefix

theorem indexFrom_nonneg_iff (sub : Str) :
    ∀ (s : Str) (i : Nat), 0 ≤ indexFrom sub s i ↔ sub <:+: s := by
  intro s
  induction s with
  | nil =>
    intro i
    by_cases h : sub = []
    · simp [indexFrom, h]
    · simp [indexFrom, h]
  | cons c cs ih =>
    intro i
    by_cases h : HasPrefix (c :: cs) sub = true
    · simp only [indexFrom, h, if_true]
      constructor
      · intro _
        exact ((hasPrefix_iff _ _).1 h).isInfix
      · intro _
        exact Int.ofNat_nonneg i
    · simp only [indexFrom, h]
      rw [if_neg (by simp), ih (i + 1), List.infix_cons_iff]
      constructor
      · intro h1
        exact Or.inr h1
      · intro h1
        rcases h1 with h1 | h1
        · exact absurd ((hasPrefix_iff _ _).2 h1) h
        · exact h1

theorem contains_iff (s sub : Str) : Contains s sub = true ↔ sub <:+: s := by
  unfold Contains Index
  rw [decide_eq_true_iff]
  exact indexFrom_nonneg_iff sub s 0

/-! ## Lemmas on trimming and splitting -/

theorem trimRightSpace_eq (s : Str) : trimRightSpace s = s.rdropWhile isSpace := rfl

theorem TrimSpace_nil : TrimSpace [] = [] := rfl

theorem TrimSpace_cons_space (c : Char) (s : Str) (hc : isSpace c = true) :
    TrimSpace (c :: s) = TrimSpace s := by
  simp [TrimSpace, trimLeftSpace, List.dropWhile_cons, hc]

theorem TrimSpace_concat_space (c : Char) (hc : isSpace c = true) :
    ∀ q : Str, TrimSpace (q ++ [c]) = TrimSpace q := by
  intro q
  induction q with
  | nil => simp [TrimSpace, trimLeftSpace, trimRightSpace, List.dropWhile_cons, hc]
  | cons d q ih =>
    by_cases hd : isSpace d = true
    · rw [List.cons_append, TrimSpace_cons_space d _ hd, TrimSpace_cons_space d _ hd, ih]
    · have h1 : trimLeftSpace (d :: q ++ [c]) = d :: q ++ [c] := by
        simp [trimLeftSpace, List.dropWhile_cons, hd]
      have h2 : trimLeftSpace (d :: q) = d :: q := by
        simp [trimLeftSpace, List.dropWhile_cons, hd]
      unfold TrimSpace
      rw [h1, h2, trimRightSpace_eq, trimRightSpace_eq]
      exact List.rdropWhile_concat_pos isSpace (d :: q) c hc

theorem isSpace_newline : isSpace '\n' = true := by decide

theorem trimmedNonBlank_cons (l : Str) (ls : List Str) :
    trimmedNonBlank (l :: ls) = trimmedNonBlank [l] ++ trimmedNonBlank ls := by
  unfold trimmedNonBlank
  rw [List.map_cons, List.map_cons, List.map_nil, ← List.filter_append]
  rfl

theorem trimmedNonBlank_nil_line : trimmedNonBlank [[]] = [] := rfl

theorem trimmedLines_eq (s : Str) : trimmedLines s = trimmedNonBlank (Split s '\n') := rfl

/-- Appending a space to the text leaves the trimmed non-blank fields as they are, also
when the first field is continued from `q`. -/
theorem trimmedNonBlank_concat_space (c : Char) (hc : isSpace c = true) :
    ∀ (s q : Str),
      trimmedNonBlank ((q ++ (splitAux (fun x => x == '\n') (s ++ [c])).1) ::
          (splitAux (fun x => x == '\n') (s ++ [c])).2)
      = trimmedNonBlank ((q ++ (splitAux (fun x => x == '\n') s).1) ::
          (splitAux (fun x => x == '\n') s).2) := by
  intro s
  induction s with
  | nil =>
    intro q
    by_cases h : (c == '\n') = true
    · simp only [List.nil_append, splitAux, h, if_true, List.append_nil]
      rw [trimmedNonBlank_cons, trimmedNonBlank_nil_line, List.append_nil]
    · simp only [List.nil_append, splitAux, h, List.append_nil]
      simp [trimmedNonBlank, TrimSpace_concat_space c hc q]
  | cons d s ih =>
    intro q
    by_cases h : (d == '\n') = true
    · have h1 := ih []
      simp only [List.nil_append] at h1
      simp only [List.cons_append, splitAux, h, if_true, List.append_nil, List.append_eq]
      rw [trimmedNonBlank_cons, h1, ← trimmedNonBlank_cons]
    · have h1 := ih (q ++ [d])
      simp only [List.append_assoc, List.singleton_append] at h1
      simp only [List.cons_append, splitAux, h, List.append_eq]
      exact h1

theorem trimmedLines_concat_space (c : Char) (hc : isSpace c = true) (s : Str) :
    trimmedLines (s ++ [c]) = trimmedLines s := by
  have h := trimmedNonBlank_concat_space c hc s []
  simpa [trimmedLines_eq, Split] using h

theorem trimmedLines_cons_space (c : Char) (hc : isSpace c = true) (s : Str) :
    trimmedLines (c :: s) = trimmedLines s := by
  by_cases h : (c == '\n') = true
  · simp [trimmedLines, Split, splitAux, h, TrimSpace_nil]
  · simp [trimmedLines, Split, splitAux, h, TrimSpace_cons_space c _ hc]

theorem trimmedLines_trimLeftSpace (s : Str) :
    trimmedLines (trimLeftSpace s) = trimmedLines s := by
  induction s with
  | nil => rfl
  | cons c s ih =>
    by_cases hc : isSpace c = true
    · have : trimLeftSpace (c :: s) = trimLeftSpace s := by
        simp [trimLeftSpace, List.dropWhile_cons, hc]
      rw [this, ih, trimmedLines_cons_space c hc]
    · have : trimLeftSpace (c :: s) = c :: s := by
        simp [trimLeftSpace, List.dropWhile_cons, hc]
      rw [this]

theorem trimmedLines_trimRightSpace (s : Str) :
    trimmedLines (trimRightSpace s) = trimmedLines s := by
  induction s using List.reverseRecOn with
  | nil => rfl
  | append_singleton s c ih =>
    by_cases hc : isSpace c = true
    · rw [trimRightSpace_eq, List.rdropWhile_concat_pos isSpace s c hc, ← trimRightSpace_eq, ih,
        trimmedLines_concat_space c hc]
    · rw [trimRightSpace_eq, List.rdropWhile_concat_neg isSpace s c hc]

theorem trimmedLines_TrimSpace (s : Str) : trimmedLines (TrimSpace s) = trimmedLines s := by
  unfold TrimSpace
  rw [trimmedLines_trimRightSpace, trimmedLines_trimLeftSpace]

theorem trimmedLines_of_TrimSpace_eq_nil (s : Str) (h : TrimSpace s = []) :
    trimmedLines s = [] := by
  rw [← trimmedLines_TrimSpace, h]
  rfl

/-! ## Lemmas on the line filter -/

theorem anyContained_iff (vs : List Str) (line : Str) :
    anyContained vs line = true ↔ ∃ v ∈ vs, v <:+: line := by
  induction vs with
  | nil => simp [anyContained]
  | cons v vs ih =>
    by_cases h : Contains line v = true
    · have h1 := (contains_iff line v).1 h
      simp only [anyContained, h, if_true, true_iff]
      exact ⟨v, List.mem_cons_self v vs, h1⟩
    · have h1 : ¬ v <:+: line := fun hv => h ((contains_iff line v).2 hv)
      simp only [anyContained, h]
      rw [if_neg (by simp), ih]
      constructor
      · rintro ⟨u, hu, hul⟩
        exact ⟨u, List.mem_cons_of_mem v hu, hul⟩
      · rintro ⟨u, hu, hul⟩
        rcases List.mem_cons.1 hu with rfl | hu
        · exact absurd hul h1
        · exact ⟨u, hu, hul⟩

theorem run_keep_iff (includes excludes : List Str) (line : Str) :
    (run.includeLine includes line && !run.excludeLine excludes line) = true
      ↔ keepLine includes excludes line := by
  unfold run.includeLine run.excludeLine keepLine
  rw [Bool.and_eq_true, Bool.not_eq_true']
  have hi : (if includes.length = 0 then true else anyContained includes line) = true
      ↔ (includes = [] ∨ ∃ v ∈ includes, v <:+: line) := by
    cases includes with
    | nil => simp
    | cons a as => simp only [List.length_cons, Nat.add_one_ne_zero, if_false, anyContained_iff,
        reduceCtorEq, false_or]
  have he : (if excludes.length = 0 then false else anyContained excludes line) = false
      ↔ ¬ (excludes ≠ [] ∧ ∃ v ∈ excludes, v <:+: line) := by
    cases excludes with
    | nil => simp
    | cons a as =>
      simp only [List.length_cons, Nat.add_one_ne_zero, if_false, ne_eq, reduceCtorEq,
        not_false_eq_true, true_and]
      rw [← Bool.not_eq_true, anyContained_iff]
  rw [hi, he]

theorem run_foldl_filterStep (includes excludes : List Str) :
    ∀ (ls acc : List Str),
      ls.foldl (run.filterStep includes excludes) acc
        = acc ++ (trimmedNonBlank ls).filter (fun l => decide (keepLine includes excludes l)) := by
  intro ls
  induction ls with
  | nil => intro acc; simp [trimmedNonBlank]
  | cons l ls ih =>
    intro acc
    rw [List.foldl_cons, ih, trimmedNonBlank_cons, List.filter_append]
    by_cases h0 : TrimSpace l = []
    · simp [run.filterStep, trimmedNonBlank, h0]
    · by_cases hk : keepLine includes excludes (TrimSpace l)
      · have hb := (run_keep_iff includes excludes (TrimSpace l)).2 hk
        simp [run.filterStep, trimmedNonBlank, h0, hk, hb]
      · have hb : ¬ (run.includeLine includes (TrimSpace l)
            && !run.excludeLine excludes (TrimSpace l)) = true :=
          fun hb => hk ((run_keep_iff includes excludes (TrimSpace l)).1 hb)
        simp only [run.filterStep, List.length_eq_zero, h0, if_false, hb, trimmedNonBlank,
          List.map_cons, List.map_nil]
        simp [h0, hk]

theorem run_filterLoop_eq (includes excludes : List Str) (ls : List Str) :
    run.filterLoop includes excludes ls
      = (trimmedNonBlank ls).filter (fun l => decide (keepLine includes excludes l)) := by
  unfold run.filterLoop
  rw [run_foldl_filterStep]
  rfl

theorem run_runOn_eq (cfg : run.Config) (res : ProcResult) :
    run.runOn cfg res
      = ((trimmedLines (run.composeOutput cfg res)).filter
          (fun l => decide (keepLine cfg.LinterCfg.Includes cfg.LinterCfg.Excludes l)), none) := by
  unfold run.runOn
  by_cases h : TrimSpace (run.composeOutput cfg res) = []
  · simp [h, trimmedLines_of_TrimSpace_eq_nil _ h]
  · simp only [List.length_eq_zero, h, if_false]
    rw [run_filterLoop_eq, ← trimmedLines_eq, trimmedLines_TrimSpace]

theorem trimmedNonBlank_of_trimmed :
    ∀ (ls : List Str), (∀ l ∈ ls, TrimSpace l = l ∧ l ≠ []) → trimmedNonBlank ls = ls := by
  intro ls
  induction ls with
  | nil => intro _; rfl
  | cons l ls ih =>
    intro h
    have hl := h l (List.mem_cons_self l ls)
    have hls := ih (fun x hx => h x (List.mem_cons_of_mem l hx))
    rw [trimmedNonBlank_cons, hls]
    simp [trimmedNonBlank, hl.1, hl.2]

theorem keepLine_nil_nil (line : Str) : keepLine [] [] line := by
  simp [keepLine]

theorem runner_runOn_eq (cfg : runner.Config) (data : Str) (err : Option Error)
    (h : data ≠ []) :
    runner.runOn cfg data err
      = ((trimmedLines data).filter
          (fun l => decide (keepLine cfg.LinterCfg.Includes cfg.LinterCfg.Excludes l)), none) := by
  have hstep : runner.filterStep cfg
      = run.filterStep cfg.LinterCfg.Includes cfg.LinterCfg.Excludes := rfl
  unfold runner.runOn
  simp only [List.length_eq_zero, h, decide_False, Bool.and_false, Bool.false_eq_true, if_false]
  rw [hstep, run_foldl_filterStep, List.nil_append, trimmedLines_eq]

theorem isInterleaving_ne_nil (a b d : Str) (h : isInterleaving a b d = true) (ha : a ≠ []) :
    d ≠ [] := by
  intro hd
  subst hd
  cases a with
  | nil => exact ha rfl
  | cons x xs => simp [isInterleaving] at h

/-! ## The claims on `Run` -/

/-- C1: for every outcome of the lint process and every include and exclude list, the
list `Run` returns is, in their order, the trimmed non-blank lines of the text to
process that satisfy the keep condition; no returned line contains an element of the
exclude list. -/
theorem C1_Run_keeps_exactly_the_matching_lines (w : World) (cfg : run.Config) :
    (run.Run w cfg).1
        = (trimmedLines (run.composeOutput cfg (w.exec (run.lintCmd w cfg)))).filter
            (fun l => decide (keepLine cfg.LinterCfg.Includes cfg.LinterCfg.Excludes l))
      ∧ ∀ l ∈ (run.Run w cfg).1, ∀ e ∈ cfg.LinterCfg.Excludes, ¬ e <:+: l := by
  have h := run_runOn_eq cfg (w.exec (run.lintCmd w cfg))
  have h1 : (run.Run w cfg).1
        = (trimmedLines (run.composeOutput cfg (w.exec (run.lintCmd w cfg)))).filter
            (fun l => decide (keepLine cfg.LinterCfg.Includes cfg.LinterCfg.Excludes l)) := by
    unfold run.Run
    rw [h]
  refine ⟨h1, ?_⟩
  intro l hl e he hel
  rw [h1, List.mem_filter, decide_eq_true_iff] at hl
  exact hl.2.2 ⟨List.ne_nil_of_mem he, e, he, hel⟩

/-- C3, refuted as stated: a lint process that fails with empty standard output makes
`Run` of `execute.go` return a nil error, and with stderr collection on even a line. -/
theorem C3_counterexample :
    (worldOf failedSilent).exec (run.lintCmd (worldOf failedSilent) (cfgOf [] [] true))
        = failedSilent
      ∧ failedSilent.err ≠ none ∧ failedSilent.stdout = []
      ∧ run.Run (worldOf failedSilent) (cfgOf [] [] true) = (["boom".toList], none)
      ∧ run.Run (worldOf failedSilent) (cfgOf [] [] false) = ([], none) := by
  refine ⟨rfl, by decide, rfl, by decide, by decide⟩

/-- C3, amended: when the lint process fails and its standard output is empty, `Run` of
`execute.go` returns a nil error; the lines are none when stderr collection is off, and
the kept trimmed non-blank lines of standard error when it is on. -/
theorem C3_Run_failure_without_stdout (w : World) (cfg : run.Config)
    (hfail : (w.exec (run.lintCmd w cfg)).err ≠ none)
    (hout : (w.exec (run.lintCmd w cfg)).stdout = []) :
    (run.Run w cfg).2 = none
      ∧ (run.Run w cfg).1
          = if cfg.LinterCfg.CollectStderr then
              (trimmedLines (w.exec (run.lintCmd w cfg)).stderr).filter
                (fun l => decide (keepLine cfg.LinterCfg.Includes cfg.LinterCfg.Excludes l))
            else [] := by
  have h := run_runOn_eq cfg (w.exec (run.lintCmd w cfg))
  unfold run.Run
  rw [h]
  refine ⟨rfl, ?_⟩
  by_cases hc : cfg.LinterCfg.CollectStderr = true
  · have : run.composeOutput cfg (w.exec (run.lintCmd w cfg))
        = '\n' :: (w.exec (run.lintCmd w cfg)).stderr := by
      simp [run.composeOutput, hc, hout]
    simp only [this, hc, if_true]
    rw [trimmedLines_cons_space '\n' isSpace_newline]
  · have : run.composeOutput cfg (w.exec (run.lintCmd w cfg)) = [] := by
      simp [run.composeOutput, hc, hout]
    simp only [this, hc]
    rfl

theorem C3_Run_failure_without_stdout_witness :
    ((worldOf failedSilent).exec (run.lintCmd (worldOf failedSilent) (cfgOf [] [] true))).err
        ≠ none
      ∧ (run.Run (worldOf failedSilent) (cfgOf [] [] true)).2 = none :=
  ⟨by decide,
    (C3_Run_failure_without_stdout (worldOf failedSilent) (cfgOf [] [] true)
      (by decide) rfl).1⟩

/-- C4: when the lint command exits non-zero after writing to standard output, both
`Run` implementations return a nil error together with the kept trimmed non-blank lines
of their text: standard output (plus standard error when collected) in `execute.go`, the
combined output in `run.go`. -/
theorem C4_Run_nonzero_exit_with_output (w : World) (cfg : run.Config) (cfg' : runner.Config)
    (hfail : (w.exec (run.lintCmd w cfg)).err ≠ none)
    (hout : (w.exec (run.lintCmd w cfg)).stdout ≠ [])
    (hfail' : (w.exec (runner.lintCmd w cfg')).err ≠ none)
    (hout' : (w.exec (runner.lintCmd w cfg')).stdout ≠ [])
    (hmerge : isInterleaving (w.exec (runner.lintCmd w cfg')).stdout
      (w.exec (runner.lintCmd w cfg')).stderr (w.exec (runner.lintCmd w cfg')).combined = true) :
    run.Run w cfg
        = ((trimmedLines (run.composeOutput cfg (w.exec (run.lintCmd w cfg)))).filter
            (fun l => decide (keepLine cfg.LinterCfg.Includes cfg.LinterCfg.Excludes l)), none)
      ∧ runner.Run w cfg'
        = ((trimmedLines (w.exec (runner.lintCmd w cfg')).combined).filter
            (fun l => decide (keepLine cfg'.LinterCfg.Includes cfg'.LinterCfg.Excludes l)),
            none) := by
  constructor
  · exact run_runOn_eq cfg (w.exec (run.lintCmd w cfg))
  · unfold runner.Run
    exact runner_runOn_eq cfg' _ _ (isInterleaving_ne_nil _ _ _ hmerge hout')

theorem C4_Run_nonzero_exit_with_output_witness :
    run.Run (worldOf failedWithFinding) (cfgOf [] [] false) = (["a.go:1:2: bad".toList], none)
      ∧ runner.Run (worldOf failedWithFinding) (runnerCfgOf [] [])
          = (["a.go:1:2: bad".toList], none) := by
  have h := C4_Run_nonzero_exit_with_output (worldOf failedWithFinding) (cfgOf [] [] false)
    (runnerCfgOf [] []) (by decide) (by decide) (by decide) (by decide) (by decide)
  refine ⟨h.1.trans ?_, h.2.trans ?_⟩
  · decide
  · decide

/-- C7, refuted as stated: with stderr collection on, a lint process that succeeds with
empty standard output and a warning on standard error makes `Run` return that warning. -/
theorem C7_counterexample :
    ((worldOf okWithWarning).exec (run.lintCmd (worldOf okWithWarning) (cfgOf [] [] true))).err
        = none
      ∧ TrimSpace ((worldOf okWithWarning).exec
          (run.lintCmd (worldOf okWithWarning) (cfgOf [] [] true))).stdout = []
      ∧ run.Run (worldOf okWithWarning) (cfgOf [] [] true) = (["warn".toList], none)
      ∧ (run.Run (worldOf okWithWarning) (cfgOf [] [] true)).1 ≠ [] := by
  refine ⟨rfl, rfl, by decide, by decide⟩

/-- C7, amended: when the lint process reports no error and the text to process
(standard output, followed by a newline and standard error when stderr collection is
on) is empty after trimming, `Run` returns an empty result and a nil error. -/
theorem C7_Run_blank_text (w : World) (cfg : run.Config)
    (herr : (w.exec (run.lintCmd w cfg)).err = none)
    (hblank : TrimSpace (run.composeOutput cfg (w.exec (run.lintCmd w cfg))) = []) :
    run.Run w cfg = ([], none) := by
  unfold run.Run run.runOn
  simp [hblank]

theorem C7_Run_blank_text_witness :
    TrimSpace (run.composeOutput (cfgOf [] [] false)
        ((worldOf okBlank).exec (run.lintCmd (worldOf okBlank) (cfgOf [] [] false)))) = []
      ∧ run.Run (worldOf okBlank) (cfgOf [] [] false) = ([], none) :=
  ⟨by decide, C7_Run_blank_text (worldOf okBlank) (cfgOf [] [] false) rfl (by decide)⟩

/-- C9, refuted as stated: the loop of `Run` trims each line and leaves out the blank
ones, also when both filter lists are empty. -/
theorem C9_counterexample :
    run.filterLoop [] [] [" a".toList, [], "b".toList] = ["a".toList, "b".toList]
      ∧ run.filterLoop [] [] [" a".toList, [], "b".toList] ≠ [" a".toList, [], "b".toList]
      ∧ Split (TrimSpace "x\n a\n\nb\n".toList) '\n'
          = ["x".toList, " a".toList, [], "b".toList]
      ∧ run.filterLoop [] [] ["x".toList, " a".toList, [], "b".toList]
          = ["x".toList, "a".toList, "b".toList]
      ∧ run.filterLoop [] [] ["x".toList, " a".toList, [], "b".toList]
          ≠ ["x".toList, " a".toList, [], "b".toList] := by
  refine ⟨by decide, by decide, by decide, by decide, by decide⟩

/-- C9, amended: for every list of lines that are non-blank and carry no leading or
trailing white space, the loop of `Run` with an empty include list and an empty exclude
list returns the list unchanged, in order and content. -/
theorem C9_filter_without_filters (ls : List Str)
    (h : ∀ l ∈ ls, TrimSpace l = l ∧ l ≠ []) :
    run.filterLoop [] [] ls = ls := by
  rw [run_filterLoop_eq, trimmedNonBlank_of_trimmed ls h]
  simp [keepLine_nil_nil]

theorem C9_filter_without_filters_witness :
    run.filterLoop [] [] ["a.go:1: x".toList, "b".toList] = ["a.go:1: x".toList, "b".toList] :=
  C9_filter_without_filters ["a.go:1: x".toList, "b".toList] (by decide)

/-! ## Lemmas on replacing and on the loops of `Parse` -/

theorem replaceScan_of_not_infix (old new : Str) :
    ∀ s : Str, ¬ old <:+: s → replaceScan old new 0 s = s := by
  intro s
  induction s with
  | nil => intro _; rfl
  | cons c cs ih =>
    intro h
    have h1 : ¬ HasPrefix (c :: cs) old = true :=
      fun hp => h ((hasPrefix_iff _ _).1 hp).isInfix
    have h2 : ¬ old <:+: cs := fun hi => h (List.infix_cons hi)
    simp only [replaceScan, h1]
    rw [if_neg (by simp), ih h2]

theorem ReplaceAll_of_not_Contains (s old new : Str) (h : ¬ Contains s old = true) :
    ReplaceAll s old new = s := by
  have hi : ¬ old <:+: s := fun hi => h ((contains_iff s old).2 hi)
  have hne : old ≠ [] := by
    intro h0
    apply hi
    rw [h0]
    exact List.nil_infix
  unfold ReplaceAll
  by_cases heq : old = new
  · rw [if_pos heq]
  · rw [if_neg heq, if_neg hne, replaceScan_of_not_infix old new s hi]

theorem getD_append_cons (x : Str) (b : List Str) :
    ∀ a : List Str, (a ++ x :: b).getD a.length [] = x := by
  intro a
  induction a with
  | nil => rfl
  | cons y a ih => simpa using ih

theorem set_append_cons (x y : Str) (b : List Str) :
    ∀ a : List Str, (a ++ x :: b).set a.length y = a ++ y :: b := by
  intro a
  induction a with
  | nil => rfl
  | cons z a ih => simp [ih]

theorem rewrite_foldl_range' (old new : Str) :
    ∀ (b a : List Str),
      (List.range' a.length b.length).foldl
        (fun out i =>
          if Contains (out.getD i []) old then out.set i (ReplaceAll (out.getD i []) old new)
          else out)
        (a ++ b)
      = a ++ b.map (fun l => ReplaceAll l old new) := by
  intro b
  induction b with
  | nil => intro a; simp
  | cons x b ih =>
    intro a
    have hstep : (if Contains ((a ++ x :: b).getD a.length []) old then
          (a ++ x :: b).set a.length (ReplaceAll ((a ++ x :: b).getD a.length []) old new)
        else a ++ x :: b) = (a ++ [ReplaceAll x old new]) ++ b := by
      rw [getD_append_cons, set_append_cons]
      by_cases hc : Contains x old = true
      · simp [hc]
      · simp [hc, ReplaceAll_of_not_Contains x old new hc]
    have hlen : (a ++ [ReplaceAll x old new]).length = a.length + 1 := by simp
    rw [List.length_cons, List.range', List.foldl_cons, hstep, ← hlen, ih]
    simp

theorem rewriteLoop_eq_map (old new : Str) (outputs : List Str) :
    run.rewriteLoop old new outputs = outputs.map (fun l => ReplaceAll l old new) := by
  have h := rewrite_foldl_range' old new outputs []
  simp only [List.length_nil, List.nil_append] at h
  unfold run.rewriteLoop
  rw [List.range_eq_range']
  exact h

theorem Parse_eq_map (cfg : run.Config) (outputs : List Str) :
    run.Parse cfg outputs
      = outputs.map (fun l =>
          ReplaceAll (ReplaceAll l cfg.RepoDir cfg.RepoTarget) ".go:".toList ".go#L".toList) := by
  unfold run.Parse
  rw [rewriteLoop_eq_map, rewriteLoop_eq_map, List.map_map]
  rfl

theorem replaceScan_skip (old new : Str) :
    ∀ (s : Str) (k : Nat), replaceScan old new k s = replaceScan old new 0 (s.drop k) := by
  intro s
  induction s with
  | nil => intro k; cases k <;> rfl
  | cons c cs ih =>
    intro k
    cases k with
    | zero => rfl
    | succ k => simp only [replaceScan, List.drop_succ_cons, ih k]

/-- A match at the front is replaced and the scan goes on behind it. -/
theorem ReplaceAll_match (old new s : Str) (hne : old ≠ []) (hon : old ≠ new) :
    ReplaceAll (old ++ s) old new = new ++ ReplaceAll s old new := by
  unfold ReplaceAll
  rw [if_neg hon, if_neg hne, if_neg hon, if_neg hne]
  cases old with
  | nil => exact absurd rfl hne
  | cons c o =>
    have hp : HasPrefix (c :: (o ++ s)) (c :: o) = true :=
      (hasPrefix_iff _ _).2 (List.prefix_append (c :: o) s)
    show replaceScan (c :: o) new 0 (c :: (o ++ s)) = new ++ replaceScan (c :: o) new 0 s
    rw [replaceScan, if_pos hp, replaceScan_skip]
    simp

/-- A code point at which `old` does not start is copied and the scan goes on. -/
theorem ReplaceAll_copy (old new : Str) (c : Char) (s : Str) (hne : old ≠ [])
    (hon : old ≠ new) (hp : ¬ old <+: c :: s) :
    ReplaceAll (c :: s) old new = c :: ReplaceAll s old new := by
  have h1 : ¬ HasPrefix (c :: s) old = true := fun h => hp ((hasPrefix_iff _ _).1 h)
  unfold ReplaceAll
  rw [if_neg hon, if_neg hne, if_neg hon, if_neg hne]
  simp only [replaceScan, h1]
  rw [if_neg (by simp)]

/-! ## The anchor rewrite leaves no `.go:` behind -/

theorem goScan_head (d : Char) (hd : d ≠ '.') :
    ∀ (s t : Str), replaceScan ".go:".toList ".go#L".toList 0 s = d :: t →
      ∃ s', s = d :: s' ∧ replaceScan ".go:".toList ".go#L".toList 0 s' = t := by
  intro s t h
  cases s with
  | nil => simp [replaceScan] at h
  | cons c cs =>
    by_cases hp : HasPrefix (c :: cs) ".go:".toList = true
    · simp only [replaceScan, hp, if_true] at h
      have h1 : '.' = d := by
        have := congrArg List.head? h
        simpa using this
      exact absurd h1.symm hd
    · simp only [replaceScan, hp] at h
      rw [if_neg (by simp)] at h
      have h1 := List.cons.inj h
      exact ⟨cs, by rw [h1.1], h1.2⟩

theorem goScan_no_prefix (c : Char) (cs : Str)
    (hp : ¬ ".go:".toList <+: c :: cs) :
    ¬ ".go:".toList <+: c :: replaceScan ".go:".toList ".go#L".toList 0 cs := by
  intro h
  obtain ⟨r, hr⟩ := h
  have hr' : '.' :: 'g' :: 'o' :: ':' :: r
      = c :: replaceScan ".go:".toList ".go#L".toList 0 cs := hr
  have h1 := List.cons.inj hr'
  obtain ⟨s1, e1, h2⟩ := goScan_head 'g' (by decide) cs _ h1.2.symm
  obtain ⟨s2, e2, h3⟩ := goScan_head 'o' (by decide) s1 _ h2
  obtain ⟨s3, e3, _⟩ := goScan_head ':' (by decide) s2 _ h3
  apply hp
  refine ⟨s3, ?_⟩
  rw [e1, e2, e3, ← h1.1]
  rfl

theorem goScan_no_infix :
    ∀ (s : Str) (k : Nat),
      ¬ ".go:".toList <:+: replaceScan ".go:".toList ".go#L".toList k s := by
  intro s
  induction s with
  | nil =>
    intro k h
    have h0 : replaceScan ".go:".toList ".go#L".toList k [] = [] := by cases k <;> rfl
    rw [h0, List.infix_nil] at h
    exact absurd h (by decide)
  | cons c cs ih =>
    intro k
    cases k with
    | succ k => simpa only [replaceScan] using ih k
    | zero =>
      by_cases hp : HasPrefix (c :: cs) ".go:".toList = true
      · simp only [replaceScan, hp, if_true]
        have hx := ih (".go:".toList.length - 1)
        generalize replaceScan ".go:".toList ".go#L".toList (".go:".toList.length - 1) cs = x at hx ⊢
        intro h
        have e : ".go#L".toList ++ x = '.' :: 'g' :: 'o' :: '#' :: 'L' :: x := rfl
        have e' : ".go:".toList = ['.', 'g', 'o', ':'] := rfl
        rw [e, e'] at h
        rw [e'] at hx
        simp only [List.infix_cons_iff, List.cons_prefix_cons] at h
        rcases h with h | h | h | h | h | h
        · exact absurd h.2.2.2.1 (by decide)
        · exact absurd h.1 (by decide)
        · exact absurd h.1 (by decide)
        · exact absurd h.1 (by decide)
        · exact absurd h.1 (by decide)
        · exact hx h
      · have hp' : ¬ ".go:".toList <+: c :: cs := fun h => hp ((hasPrefix_iff _ _).2 h)
        simp only [replaceScan, hp]
        rw [if_neg (by simp), List.infix_cons_iff]
        rintro (h | h)
        · exact goScan_no_prefix c cs hp' h
        · exact ih 0 h

theorem ReplaceAll_go_no_infix (s : Str) :
    ¬ ".go:".toList <:+: ReplaceAll s ".go:".toList ".go#L".toList := by
  have h : ReplaceAll s ".go:".toList ".go#L".toList
      = replaceScan ".go:".toList ".go#L".toList 0 s := by
    unfold ReplaceAll
    rw [if_neg (by decide), if_neg (by decide)]
  rw [h]
  exact goScan_no_infix s 0

/-! ## The claims on `Parse` -/

/-- C2: `Parse` returns a list of the same length whose `i`-th line is the `i`-th input
line with every occurrence of the clone directory replaced by the browse-URL prefix and
then every `.go:` replaced by `.go#L`; the line `/tmp/repo/main.go:10:5: unused var`
becomes `https://github.com/org/repo/blob/main/main.go#L10:5: unused var`. -/
theorem C2_Parse_rewrites_every_line (cfg : run.Config) (lines : List Str) :
    run.Parse cfg lines
        = lines.map (fun l =>
            ReplaceAll (ReplaceAll l cfg.RepoDir cfg.RepoTarget) ".go:".toList ".go#L".toList)
      ∧ (run.Parse cfg lines).length = lines.length
      ∧ run.Parse (cfgOf [] [] false) ["/tmp/repo/main.go:10:5: unused var".toList]
          = ["https://github.com/org/repo/blob/main/main.go#L10:5: unused var".toList] := by
  refine ⟨Parse_eq_map cfg lines, ?_, ?_⟩
  · rw [Parse_eq_map, List.length_map]
  · decide

/-- C10: no line returned by `Parse` contains `.go:`, whatever the clone directory and
the browse-URL prefix are. -/
theorem C10_Parse_leaves_no_go_colon (cfg : run.Config) (lines : List Str) :
    ∀ l ∈ run.Parse cfg lines, ¬ ".go:".toList <:+: l ∧ Contains l ".go:".toList = false := by
  intro l hl
  rw [Parse_eq_map, List.mem_map] at hl
  obtain ⟨x, _, rfl⟩ := hl
  have h := ReplaceAll_go_no_infix (ReplaceAll x cfg.RepoDir cfg.RepoTarget)
  refine ⟨h, ?_⟩
  rw [← Bool.not_eq_true, contains_iff]
  exact h

theorem C10_Parse_leaves_no_go_colon_witness :
    run.Parse cfgGoColon ["/tmp/repo/a.go:1:2: bad".toList]
        = ["https://host/x.go#L/blob/main/a.go#L1:2: bad".toList]
      ∧ ¬ ".go:".toList <:+: "https://host/x.go#L/blob/main/a.go#L1:2: bad".toList
      ∧ Contains "https://host/x.go#L/blob/main/a.go#L1:2: bad".toList ".go:".toList = false :=
  ⟨by decide,
    C10_Parse_leaves_no_go_colon cfgGoColon ["/tmp/repo/a.go:1:2: bad".toList]
      "https://host/x.go#L/blob/main/a.go#L1:2: bad".toList (by decide)⟩

/-! ## The claim on `Prepare` -/

/-- C8, refuted as stated: when `git clone` fails, `go.mod` is absent and `Prepare`
returns the wrapped command error, not the skip error. -/
theorem C8_counterexample :
    worldCloneFails.IsFileExists
        (worldCloneFails.Join (cfgOf [] [] false).RepoDir "go.mod".toList) = false
      ∧ (run.Prepare worldCloneFails (cfgOf [] [] false)).err
          = some (Error.runFailed "/usr/bin/git".toList
              ["git".toList, "clone".toList, "https://github.com/org/repo".toList]
              (Error.exec "exit status 128".toList))
      ∧ (run.Prepare worldCloneFails (cfgOf [] [] false)).err ≠ some ErrSkipNoGoModRepo := by
  refine ⟨rfl, by decide, by decide⟩

/-- C8, amended: when `go.mod` is absent from the clone directory, the first of the
install, remove and clone commands that fails makes `Prepare` stop there and return that
command's wrapped error; when all three succeed, `Prepare` returns `ErrSkipNoGoModRepo`
after exactly these three commands, and the skip error is returned in no other case.
Always the commands run are an initial part of install, remove and clone, and the
configuration (so `RepoBranch` and `RepoTarget`) is left unchanged. -/
theorem C8_Prepare_without_go_mod (w : World) (cfg : run.Config)
    (habsent : w.IsFileExists (w.Join cfg.RepoDir "go.mod".toList) = false) :
    (∀ e, (w.exec (run.installCmd w cfg)).err = some e →
        run.Prepare w cfg
          = ⟨some (Error.runFailed (run.installCmd w cfg).Path (run.installCmd w cfg).Args e),
              cfg, [run.installCmd w cfg]⟩)
      ∧ (∀ e, (w.exec (run.installCmd w cfg)).err = none →
          (w.exec (run.rmCmd w cfg)).err = some e →
          run.Prepare w cfg
            = ⟨some (Error.runFailed (run.rmCmd w cfg).Path (run.rmCmd w cfg).Args e),
                cfg, [run.installCmd w cfg, run.rmCmd w cfg]⟩)
      ∧ (∀ e, (w.exec (run.installCmd w cfg)).err = none →
          (w.exec (run.rmCmd w cfg)).err = none →
          (w.exec (run.cloneCmd w cfg)).err = some e →
          run.Prepare w cfg
            = ⟨some (Error.runFailed (run.cloneCmd w cfg).Path (run.cloneCmd w cfg).Args e),
                cfg, [run.installCmd w cfg, run.rmCmd w cfg, run.cloneCmd w cfg]⟩)
      ∧ ((w.exec (run.installCmd w cfg)).err = none →
          (w.exec (run.rmCmd w cfg)).err = none →
          (w.exec (run.cloneCmd w cfg)).err = none →
          run.Prepare w cfg
            = ⟨some ErrSkipNoGoModRepo, cfg,
                [run.installCmd w cfg, run.rmCmd w cfg, run.cloneCmd w cfg]⟩)
      ∧ ((run.Prepare w cfg).err = some ErrSkipNoGoModRepo ↔
          (w.exec (run.installCmd w cfg)).err = none
            ∧ (w.exec (run.rmCmd w cfg)).err = none
            ∧ (w.exec (run.cloneCmd w cfg)).err = none)
      ∧ (run.Prepare w cfg).trace
          <+: [run.installCmd w cfg, run.rmCmd w cfg, run.cloneCmd w cfg]
      ∧ (run.Prepare w cfg).cfg = cfg := by
  have hne : ∀ (c : Cmd) (e : Error),
      some (Error.runFailed c.Path c.Args e) ≠ some ErrSkipNoGoModRepo := by
    intro c e h
    have h1 := Option.some.inj h
    unfold ErrSkipNoGoModRepo at h1
    cases h1
  cases h1 : (w.exec (run.installCmd w cfg)).err with
  | some e1 =>
    have hP : run.Prepare w cfg
        = ⟨some (Error.runFailed (run.installCmd w cfg).Path (run.installCmd w cfg).Args e1),
            cfg, [run.installCmd w cfg]⟩ := by
      simp only [run.Prepare, run.runCmd, h1]
    refine ⟨?_, ?_, ?_, ?_, ?_, ?_, ?_⟩
    · intro e he
      rw [hP, Option.some.inj he]
    · intro e he
      exact absurd he (by simp)
    · intro e he
      exact absurd he (by simp)
    · intro he
      exact absurd he (by simp)
    · rw [hP]
      constructor
      · intro h
        exact absurd h (hne _ _)
      · intro h
        exact absurd h.1 (by simp)
    · rw [hP]
      exact ⟨[run.rmCmd w cfg, run.cloneCmd w cfg], rfl⟩
    · rw [hP]
  | none =>
    cases h2 : (w.exec (run.rmCmd w cfg)).err with
    | some e2 =>
      have hP : run.Prepare w cfg
          = ⟨some (Error.runFailed (run.rmCmd w cfg).Path (run.rmCmd w cfg).Args e2),
              cfg, [run.installCmd w cfg, run.rmCmd w cfg]⟩ := by
        simp only [run.Prepare, run.runCmd, h1, h2]
      refine ⟨?_, ?_, ?_, ?_, ?_, ?_, ?_⟩
      · intro e he
        exact absurd he (by simp)
      · intro e _ he
        rw [hP, Option.some.inj he]
      · intro e _ he
        exact absurd he (by simp)
      · intro _ he
        exact absurd he (by simp)
      · rw [hP]
        constructor
        · intro h
          exact absurd h (hne _ _)
        · intro h
          exact absurd h.2.1 (by simp)
      · rw [hP]
        exact ⟨[run.cloneCmd w cfg], rfl⟩
      · rw [hP]
    | none =>
      cases h3 : (w.exec (run.cloneCmd w cfg)).err with
      | some e3 =>
        have hP : run.Prepare w cfg
            = ⟨some (Error.runFailed (run.cloneCmd w cfg).Path (run.cloneCmd w cfg).Args e3),
                cfg, [run.installCmd w cfg, run.rmCmd w cfg, run.cloneCmd w cfg]⟩ := by
          simp only [run.Prepare, run.runCmd, h1, h2, h3]
        refine ⟨?_, ?_, ?_, ?_, ?_, ?_, ?_⟩
        · intro e he
          exact absurd he (by simp)
        · intro e _ he
          exact absurd he (by simp)
        · intro e _ _ he
          rw [hP, Option.some.inj he]
        · intro _ _ he
          exact absurd he (by simp)
        · rw [hP]
          constructor
          · intro h
            exact absurd h (hne _ _)
          · intro h
            exact absurd h.2.2 (by simp)
        · rw [hP]
        · rw [hP]
      | none =>
        have hP : run.Prepare w cfg
            = ⟨some ErrSkipNoGoModRepo, cfg,
                [run.installCmd w cfg, run.rmCmd w cfg, run.cloneCmd w cfg]⟩ := by
          simp only [run.Prepare, run.runCmd, h1, h2, h3, habsent, Bool.not_false, if_true]
        refine ⟨?_, ?_, ?_, ?_, ?_, ?_, ?_⟩
        · intro e he
          exact absurd he (by simp)
        · intro e _ he
          exact absurd he (by simp)
        · intro e _ _ he
          exact absurd he (by simp)
        · intro _ _ _
          exact hP
        · rw [hP]
          exact ⟨fun _ => ⟨rfl, rfl, rfl⟩, fun _ => rfl⟩
        · rw [hP]
        · rw [hP]

theorem C8_Prepare_without_go_mod_witness :
    worldNoGoMod.IsFileExists (worldNoGoMod.Join (cfgOf [] [] false).RepoDir "go.mod".toList)
        = false
      ∧ run.Prepare worldNoGoMod (cfgOf [] [] false)
          = ⟨some ErrSkipNoGoModRepo, cfgOf [] [] false,
              [run.installCmd worldNoGoMod (cfgOf [] [] false),
                run.rmCmd worldNoGoMod (cfgOf [] [] false),
                run.cloneCmd worldNoGoMod (cfgOf [] [] false)]⟩ :=
  ⟨rfl, (C8_Prepare_without_go_mod worldNoGoMod (cfgOf [] [] false) rfl).2.2.2.1 rfl rfl rfl⟩

/-! ## The claim on `main` -/

/-- C6, refuted as stated: with the exit-on-failure flag set and a finding, the process
still exits zero when posting the comment fails; and it exits non-zero, findings or not,
when the configuration cannot be loaded. -/
theorem C6_counterexample :
    (∃ cfg, stagesCommentFails.LoadCfg = Except.ok cfg ∧ cfg.ExitFail = true)
      ∧ stagesCommentFails.Prepare = none
      ∧ stagesCommentFails.Run.2 = none ∧ stagesCommentFails.Run.1 ≠ []
      ∧ main stagesCommentFails = 0
      ∧ stagesNoConfig.Run.1 = [] ∧ main stagesNoConfig = 1 := by
  refine ⟨⟨_, rfl, rfl⟩, rfl, rfl, by decide, rfl, rfl, rfl⟩

/-- C6, amended: the process exits non-zero exactly when loading the configuration
fails, or when the configuration loads, `Prepare` and `Run` succeed, the output list is
non-empty, the comment is either not to be posted or posted successfully, and the
exit-on-failure flag is set; in every other case it exits zero. -/
theorem C6_main_exit_status (s : Stages) :
    (main s ≠ 0 ↔
        (∃ e, s.LoadCfg = Except.error e)
          ∨ ∃ cfg, s.LoadCfg = Except.ok cfg ∧ s.Prepare = none ∧ s.Run.2 = none
              ∧ s.Run.1 ≠ []
              ∧ ((cfg.IssueComment = true ∧ cfg.IssueID > 0) → s.CreateIssueComment = none)
              ∧ cfg.ExitFail = true)
      ∧ (main s = 0 ∨ main s = 1) := by
  obtain ⟨lc, pr, ⟨outs, rerr⟩, cm⟩ := s
  cases lc with
  | error e => simp [main]
  | ok cfg =>
    cases pr with
    | some e => simp [main]
    | none =>
      cases rerr with
      | some e => simp [main]
      | none =>
        by_cases ho : outs = []
        · simp [main, ho]
        · by_cases hc : (cfg.IssueComment && decide (cfg.IssueID > 0)) = true
          · have hc' : cfg.IssueComment = true ∧ cfg.IssueID > 0 := by simpa using hc
            cases cm with
            | some e => simp [main, ho, hc, hc']
            | none => cases hf : cfg.ExitFail <;> simp [main, ho, hc, hf]
          · have hc' : ¬ (cfg.IssueComment = true ∧ cfg.IssueID > 0) := by simpa using hc
            have hc'' : cfg.IssueComment = true → 0 < cfg.IssueID → cm = none :=
              fun a b => absurd ⟨a, b⟩ hc'
            cases hf : cfg.ExitFail
            · simp [main, ho, hc, hf]
            · simp only [main, List.length_eq_zero, ho, hc, hf, if_false, if_true]
              simp
              exact ⟨ho, hc'', hf⟩

theorem C6_main_exit_status_witness : main stagesFinding ≠ 0 :=
  (C6_main_exit_status stagesFinding).1.2
    (Or.inr ⟨⟨false, 0, true⟩, rfl, rfl, rfl, by decide, fun h => absurd h.1 (by decide), rfl⟩)

/-! ## Lemmas on `Index` and the comment line -/

theorem indexFrom_spec (sub : Str) :
    ∀ (s : Str) (i : Nat), sub <:+: s →
      ∃ n : Nat, indexFrom sub s i = ((i + n : Nat) : Int) ∧ n ≤ s.length
        ∧ sub <+: s.drop n ∧ ∀ k < n, ¬ sub <+: s.drop k := by
  intro s
  induction s with
  | nil =>
    intro i h
    have h0 : sub = [] := List.infix_nil.1 h
    refine ⟨0, ?_, Nat.le_refl _, ?_, fun k hk => absurd hk (Nat.not_lt_zero k)⟩
    · simp [indexFrom, h0]
    · rw [h0]
      exact List.nil_prefix
  | cons c cs ih =>
    intro i h
    by_cases hp : HasPrefix (c :: cs) sub = true
    · refine ⟨0, ?_, Nat.zero_le _, (hasPrefix_iff _ _).1 hp,
        fun k hk => absurd hk (Nat.not_lt_zero k)⟩
      simp [indexFrom, hp]
    · have hp' : ¬ sub <+: c :: cs := fun h1 => hp ((hasPrefix_iff _ _).2 h1)
      have hcs : sub <:+: cs := by
        rcases List.infix_cons_iff.1 h with h1 | h1
        · exact absurd h1 hp'
        · exact h1
      obtain ⟨n, hn, hle, hpre, hfirst⟩ := ih (i + 1) hcs
      refine ⟨n + 1, ?_, Nat.succ_le_succ hle, hpre, ?_⟩
      · simp only [indexFrom, hp]
        rw [if_neg (by simp), hn]
        congr 1
        omega
      · intro k hk
        cases k with
        | zero => exact hp'
        | succ k => exact hfirst k (Nat.lt_of_succ_lt_succ hk)

theorem Index_neg_of_not_infix (s sub : Str) (h : ¬ sub <:+: s) : Index s sub < 0 := by
  have h1 : ¬ 0 ≤ Index s sub := fun h0 => h ((indexFrom_nonneg_iff sub s 0).1 h0)
  omega

theorem not_mem_take_of_no_prefix (c : Char) :
    ∀ (l : Str) (m : Nat), (∀ k < m, ¬ [c] <+: l.drop k) → c ∉ l.take m := by
  intro l
  induction l with
  | nil => intro m _; simp
  | cons x xs ih =>
    intro m h
    cases m with
    | zero => simp
    | succ m =>
      rw [List.take_succ_cons, List.mem_cons]
      rintro (hx | hx)
      · apply h 0 (Nat.succ_pos m)
        rw [hx]
        exact ⟨xs, rfl⟩
      · exact ih m (fun k hk => h (k + 1) (Nat.succ_lt_succ hk)) hx

theorem not_mem_of_not_singleton_infix (c : Char) :
    ∀ (l : Str), ¬ [c] <:+: l → c ∉ l := by
  intro l h hc
  obtain ⟨a, b, hab⟩ := List.append_of_mem hc
  apply h
  exact ⟨a, b, by rw [hab]; simp⟩

/-- The shape of every line that contains the browse-URL prefix, and what
`buildIssueCommentLineSplit` makes of it. -/
theorem buildIssueCommentLineSplit_spec (cfg : run.Config) (line : Str)
    (h : cfg.RepoTarget <:+: line) :
    ∃ pre tok post : Str,
      line = pre ++ tok ++ post
        ∧ cfg.RepoTarget <+: tok ++ post
        ∧ (∀ k < pre.length, ¬ cfg.RepoTarget <+: line.drop k)
        ∧ ' ' ∉ tok
        ∧ (post = [] ∨ ∃ r, post = ' ' :: r)
        ∧ run.buildIssueCommentLineSplit cfg line = (TrimSpace tok, TrimSpace (pre ++ post)) := by
  obtain ⟨n, hn, hle, hpre, hfirst⟩ := indexFrom_spec cfg.RepoTarget line 0 h
  have hidx : Index line cfg.RepoTarget = (n : Int) := by
    unfold Index
    rw [hn, Nat.zero_add]
  have hnot : ¬ ((n : Int) < 0) := by omega
  by_cases hsp : " ".toList <:+: line.drop n
  · obtain ⟨m, hm, _, hmpre, hmfirst⟩ := indexFrom_spec " ".toList (line.drop n) 0 hsp
    have hidx2 : Index (line.drop n) " ".toList = (m : Int) := by
      unfold Index
      rw [hm, Nat.zero_add]
    have hnot2 : ¬ ((m : Int) < 0) := by omega
    refine ⟨line.take n, (line.drop n).take m, (line.drop n).drop m, ?_, ?_, ?_, ?_, ?_, ?_⟩
    · rw [List.append_assoc, List.take_append_drop, List.take_append_drop]
    · rw [List.take_append_drop]
      exact hpre
    · intro k hk
      exact hfirst k (lt_of_lt_of_le hk (by simp))
    · exact not_mem_take_of_no_prefix ' ' (line.drop n) m hmfirst
    · right
      obtain ⟨r, hr⟩ := hmpre
      exact ⟨r, hr.symm⟩
    · unfold run.buildIssueCommentLineSplit
      simp only [hidx, hnot, if_false, Int.toNat_ofNat, hidx2, hnot2]
  · have hneg := Index_neg_of_not_infix (line.drop n) " ".toList hsp
    refine ⟨line.take n, line.drop n, [], ?_, ?_, ?_, ?_, Or.inl rfl, ?_⟩
    · rw [List.append_nil, List.take_append_drop]
    · rw [List.append_nil]
      exact hpre
    · intro k hk
      exact hfirst k (lt_of_lt_of_le hk (by simp))
    · exact not_mem_of_not_singleton_infix ' ' _ hsp
    · unfold run.buildIssueCommentLineSplit
      simp only [hidx, hnot, if_false, Int.toNat_ofNat, hneg, if_true, List.append_nil]

/-! ## The claim on the issue comment -/

/-- C5, refuted as stated: for the example line the link text is `a.go#L1:2:`, with the
colon that ends the token, and not `a.go#L1:2`. -/
theorem C5_counterexample :
    (cfgOf [] [] false).RepoTarget <:+: exampleLine
      ∧ run.buildIssueCommentLine (cfgOf [] [] false) exampleLine
          = "[a.go#L1:2:](https://github.com/org/repo/blob/main/a.go#L1:2:) msg".toList
      ∧ ¬ "[a.go#L1:2](".toList <+: run.buildIssueCommentLine (cfgOf [] [] false) exampleLine
      ∧ run.commentItems (cfgOf [] [] false) 0 [exampleLine]
          ≠ "1. [a.go#L1:2](https://github.com/org/repo/blob/main/a.go#L1:2:) msg\n".toList := by
  refine ⟨by decide, by decide, by decide, by decide⟩

/-- C5, amended: every line that contains the browse-URL prefix splits as
`pre ++ tok ++ post`, where `tok` starts at the first occurrence of the prefix, holds no
space and is followed by a space or the end of the line; `buildIssueCommentLine` renders
it as `[relative-path](full-url) trailing-text` with `full-url` the trimmed `tok`,
`relative-path` the `full-url` without the occurrences of the prefix and without leading
`/` and `:`, and `trailing-text` the trimmed `pre ++ post` (a blank `tok` leaves the line
as it is).  For the example line, item 1 of the comment body is
`1. [a.go#L1:2:](https://github.com/org/repo/blob/main/a.go#L1:2:) msg`. -/
theorem C5_buildIssueCommentLine_renders_link :
    (∀ (cfg : run.Config) (line : Str), cfg.RepoTarget <:+: line →
      ∃ pre tok post : Str,
        line = pre ++ tok ++ post
          ∧ cfg.RepoTarget <+: tok ++ post
          ∧ (∀ k < pre.length, ¬ cfg.RepoTarget <+: line.drop k)
          ∧ ' ' ∉ tok
          ∧ (post = [] ∨ ∃ r, post = ' ' :: r)
          ∧ run.buildIssueCommentLine cfg line
              = if TrimSpace tok = [] then line
                else "[".toList
                  ++ TrimLeft (ReplaceAll (TrimSpace tok) cfg.RepoTarget []) "/:".toList
                  ++ "](".toList ++ TrimSpace tok ++ ") ".toList ++ TrimSpace (pre ++ post))
      ∧ run.commentItems (cfgOf [] [] false) 0 [exampleLine]
          = "1. [a.go#L1:2:](https://github.com/org/repo/blob/main/a.go#L1:2:) msg\n".toList
      ∧ run.buildIssueComment (worldOf okBlank) (cfgOf [] [] false) [exampleLine]
          = ("Run `lint` on Repo: https://github.com/org/repo\n\n"
              ++ "Got total 1 line output in action: \n<details>\n<summary>Expand</summary>\n\n"
              ++ "1. [a.go#L1:2:](https://github.com/org/repo/blob/main/a.go#L1:2:) msg\n"
              ++ "\n</details>\n\nReport issue: https://github.com/org/repo/issues\n").toList := by
  refine ⟨?_, by decide, by decide⟩
  intro cfg line h
  obtain ⟨pre, tok, post, h1, h2, h3, h4, h5, h6⟩ := buildIssueCommentLineSplit_spec cfg line h
  refine ⟨pre, tok, post, h1, h2, h3, h4, h5, ?_⟩
  unfold run.buildIssueCommentLine
  rw [h6]

theorem C5_buildIssueCommentLine_renders_link_witness :
    ∃ pre tok post : Str,
      exampleLine = pre ++ tok ++ post
        ∧ (cfgOf [] [] false).RepoTarget <+: tok ++ post
        ∧ (∀ k < pre.length, ¬ (cfgOf [] [] false).RepoTarget <+: exampleLine.drop k)
        ∧ ' ' ∉ tok
        ∧ (post = [] ∨ ∃ r, post = ' ' :: r)
        ∧ run.buildIssueCommentLine (cfgOf [] [] false) exampleLine
            = if TrimSpace tok = [] then exampleLine
              else "[".toList
                ++ TrimLeft (ReplaceAll (TrimSpace tok) (cfgOf [] [] false).RepoTarget [])
                    "/:".toList
                ++ "](".toList ++ TrimSpace tok ++ ") ".toList ++ TrimSpace (pre ++ post) :=
  C5_buildIssueCommentLine_renders_link.1 (cfgOf [] [] false) exampleLine (by decide)

end GoLinterRunner
